import Mathlib

/-!
Verification of the backup/sync core of src/backup_to_s3.py.

The Python program is embedded shallowly:
* POSIX path strings are Lean `String`s; `pathlib.Path.resolve` is an
  explicit `resolve : String → String` parameter (the filesystem's
  symlink/cwd resolution at the moment of the call);
* `os.path.relpath` on absolute POSIX paths is the total component
  computation `posixRelpath` (on POSIX it raises only for inputs this
  program never passes, so the `except ValueError` branch is modelled by
  the `none` case of `relpathOpt`);
* the PostgreSQL tables `s3_backups` / `s3_backups_deleted` are lists of
  records; SQL `INSERT .. ON CONFLICT` is an explicit upsert; the SQL
  `LIKE` operator is the matcher `likeMatch`;
* S3 is the list of keys currently present in the bucket;
* exceptions are `Option`/outcome values, and the per-record transaction
  of the deletion pass commits or discards its table changes atomically.
-/

namespace ImageServer

/-- `str.split('/')` on the character list of a path (Python semantics:
empty pieces are kept). -/
def splitOnSlashAux : List Char → List Char → List String
  | [], acc => [⟨acc.reverse⟩]
  | c :: rest, acc =>
    if c = '/' then ⟨acc.reverse⟩ :: splitOnSlashAux rest []
    else splitOnSlashAux rest (c :: acc)

/-- `str.split('/')` of a path string. -/
def splitOnSlash (s : String) : List String :=
  splitOnSlashAux s.data []

/-- Components of a POSIX path string: split on the separator and drop
empty pieces, as the list comprehensions inside posixpath.relpath do. -/
def splitComponents (p : String) : List String :=
  (splitOnSlash p).filter (fun c => c ≠ "")

/-- Final path component as pathlib computes `.name`: the last component
after dropping empty and single-dot pieces. -/
def basename (p : String) : String :=
  (((splitOnSlash p).filter (fun c => c ≠ "" ∧ c ≠ ".")).getLast?).getD ""

/-- Length of the longest common prefix of two component lists, as
`os.path.commonprefix` computes it inside `os.path.relpath`. -/
def commonLen : List String → List String → Nat
  | [], _ => 0
  | _ :: _, [] => 0
  | a :: as, b :: bs => if a = b then commonLen as bs + 1 else 0

/-- `posixpath.join` over a component list. -/
def joinPath : List String → String
  | [] => ""
  | [x] => x
  | x :: xs => x ++ "/" ++ joinPath xs

/-- The relative component list built by `os.path.relpath`: one `".."`
for every non-common component of `start`, then the non-common
components of `path`. -/
def relComponents (path start : String) : List String :=
  List.replicate ((splitComponents start).length
      - commonLen (splitComponents start) (splitComponents path)) ".."
    ++ (splitComponents path).drop (commonLen (splitComponents start) (splitComponents path))

/-- `os.path.relpath(path, start)` for normalized absolute POSIX paths. -/
def posixRelpath (path start : String) : String :=
  if (relComponents path start).isEmpty then "." else joinPath (relComponents path start)

/-- The `try: os.path.relpath .. except ValueError` of `get_s3_key`:
on POSIX absolute inputs the call is total, so it yields `some`;
`none` is the (here unreachable) ValueError branch kept for the
fallback structure of the source. -/
def relpathOpt (path start : String) : Option String :=
  some (posixRelpath path start)

/-- Python's `str.startswith`. -/
def strStartsWith (s pre : String) : Bool :=
  pre.data.isPrefixOf s.data

/-- Python's `str.replace('\\', '/')` (single-character pattern, hence a
character map). -/
def normSep (s : String) : String :=
  ⟨s.data.map (fun c => if c = '\\' then '/' else c)⟩

/-- `get_s3_key(filepath, source_type, source_path)` from
src/backup_to_s3.py lines 85-107: resolve both paths, relativize, fall
back to the base name on relativization failure or a relative path that
starts with `".."`, normalize separators, and prefix the source type. -/
def get_s3_key (resolve : String → String) (filepath source_type source_path : String) :
    String :=
  let filepath_resolved := resolve filepath
  let source_path_resolved := resolve source_path
  let relative_path :=
    match relpathOpt filepath_resolved source_path_resolved with
    | some r => r
    | none => basename filepath
  let relative_path2 :=
    if strStartsWith relative_path ".." then basename filepath else relative_path
  source_type ++ "/" ++ normSep relative_path2

theorem string_data_append (a b : String) : (a ++ b).data = a.data ++ b.data := by
  cases a; cases b; rfl

theorem commonLen_le (a b : List String) : commonLen a b ≤ a.length := by
  induction a generalizing b with
  | nil => simp [commonLen]
  | cons x xs ih =>
    cases b with
    | nil => simp [commonLen]
    | cons y ys =>
      by_cases h : x = y
      · simpa [commonLen, h] using Nat.succ_le_succ (ih ys)
      · simp [commonLen, h]

theorem prefix_of_commonLen_eq (a b : List String) (h : commonLen a b = a.length) :
    a <+: b := by
  induction a generalizing b with
  | nil => exact List.nil_prefix
  | cons x xs ih =>
    cases b with
    | nil => simp [commonLen] at h
    | cons y ys =>
      by_cases hxy : x = y
      · subst hxy
        simp [commonLen] at h
        exact List.cons_prefix_cons.mpr ⟨rfl, ih ys (by omega)⟩
      · simp [commonLen, hxy] at h

theorem isPrefixOf_of_commonLen_eq (a b : List String) (h : commonLen a b = a.length) :
    a.isPrefixOf b = true :=
  List.isPrefixOf_iff_prefix.mpr (prefix_of_commonLen_eq a b h)

theorem strStartsWith_joinPath_dotdot (t : List String) :
    strStartsWith (joinPath (".." :: t)) ".." = true := by
  cases t with
  | nil => decide
  | cons y ys =>
    have h1 : joinPath (".." :: y :: ys) = ".." ++ "/" ++ joinPath (y :: ys) := rfl
    unfold strStartsWith
    rw [h1, string_data_append, string_data_append]
    exact List.isPrefixOf_iff_prefix.mpr
      ⟨("/").data ++ (joinPath (y :: ys)).data, (List.append_assoc _ _ _).symm⟩

theorem posixRelpath_startsWith_of_outside (path start : String)
    (h : (splitComponents start).isPrefixOf (splitComponents path) = false) :
    strStartsWith (posixRelpath path start) ".." = true := by
  have hne : commonLen (splitComponents start) (splitComponents path)
      ≠ (splitComponents start).length := by
    intro heq
    have := isPrefixOf_of_commonLen_eq _ _ heq
    rw [h] at this
    exact Bool.false_ne_true this
  have hlt : commonLen (splitComponents start) (splitComponents path)
      < (splitComponents start).length :=
    lt_of_le_of_ne (commonLen_le _ _) hne
  obtain ⟨k, hk⟩ : ∃ k, (splitComponents start).length
      - commonLen (splitComponents start) (splitComponents path) = k + 1 :=
    ⟨(splitComponents start).length
      - commonLen (splitComponents start) (splitComponents path) - 1, by omega⟩
  have hrc : relComponents path start
      = ".." :: (List.replicate k ".."
          ++ (splitComponents path).drop
            (commonLen (splitComponents start) (splitComponents path))) := by
    unfold relComponents
    rw [hk, List.replicate_succ, List.cons_append]
  unfold posixRelpath
  rw [hrc]
  simpa using strStartsWith_joinPath_dotdot _

/-- C5: for an input path outside the resolved source root, or with failed
relativization, or whose computed relative path begins with `".."`, the
(total, exception-free) `get_s3_key` yields `source_type/` followed by the
base name of the path; for a path inside the resolved root whose relative
path does not begin with `".."` it yields `source_type/` followed by the
separator-normalized relative path. -/
theorem c5_remote_key_fallback (resolve : String → String)
    (filepath source_type source_path : String) :
    (relpathOpt (resolve filepath) (resolve source_path) = none
        ∨ (splitComponents (resolve source_path)).isPrefixOf
            (splitComponents (resolve filepath)) = false
        ∨ strStartsWith (posixRelpath (resolve filepath) (resolve source_path)) ".." = true →
      get_s3_key resolve filepath source_type source_path
        = source_type ++ "/" ++ normSep (basename filepath))
    ∧ ((splitComponents (resolve source_path)).isPrefixOf
          (splitComponents (resolve filepath)) = true →
        strStartsWith (posixRelpath (resolve filepath) (resolve source_path)) ".." = false →
      get_s3_key resolve filepath source_type source_path
        = source_type ++ "/" ++ normSep (posixRelpath (resolve filepath) (resolve source_path))) := by
  constructor
  · intro h
    have hss : strStartsWith (posixRelpath (resolve filepath) (resolve source_path)) ".."
        = true := by
      rcases h with h | h | h
      · simp [relpathOpt] at h
      · exact posixRelpath_startsWith_of_outside _ _ h
      · exact h
    unfold get_s3_key
    simp [relpathOpt, hss]
  · intro _ hss
    unfold get_s3_key
    simp [relpathOpt, hss]

theorem c5_remote_key_fallback_witness :
    get_s3_key (fun s => s) "/other/pics/a.jpg" "internal" "/data/images" = "internal/a.jpg"
      ∧ get_s3_key (fun s => s) "/data/images/sub/b.jpg" "internal" "/data/images"
          = "internal/sub/b.jpg" := by
  constructor
  · exact ((c5_remote_key_fallback (fun s => s) "/other/pics/a.jpg" "internal"
      "/data/images").1 (Or.inr (Or.inl (by decide)))).trans (by decide)
  · exact ((c5_remote_key_fallback (fun s => s) "/data/images/sub/b.jpg" "internal"
      "/data/images").2 (by decide) (by decide)).trans (by decide)

/-- C6: the derived remote key depends on nothing besides the triple
(local path, source type, source root) and the filesystem's resolution of
the two paths: any two resolution states that agree on those two paths
produce the identical key, so repeated evaluations over an unchanged
filesystem return the identical key string. -/
theorem c6_remote_key_deterministic (r1 r2 : String → String)
    (filepath source_type source_path : String)
    (h1 : r1 filepath = r2 filepath) (h2 : r1 source_path = r2 source_path) :
    get_s3_key r1 filepath source_type source_path
      = get_s3_key r2 filepath source_type source_path := by
  unfold get_s3_key
  rw [h1, h2]

theorem c6_remote_key_deterministic_witness :
    get_s3_key (fun s => s) "/data/images/a.jpg" "internal" "/data/images"
      = get_s3_key (fun s => s ++ "") "/data/images/a.jpg" "internal" "/data/images" :=
  c6_remote_key_deterministic (fun s => s) (fun s => s ++ "")
    "/data/images/a.jpg" "internal" "/data/images" (by decide) (by decide)

/-! ## Ledger model -/

/-- A row of the live `s3_backups` table (unique on `file_path`). -/
structure BackupRecord where
  file_path : String
  s3_key : String
  source_type : String
  file_size : Option Nat
  md5_checksum : Option String
  status : String
  uploaded_at : Option Nat
deriving DecidableEq

/-- A row of the append-only `s3_backups_deleted` audit table, in the
column order of the INSERT in `sync_deletions` (lines 292-296). -/
structure DeletedRecord where
  file_path : String
  s3_key : String
  s3_full_path : String
  source_type : String
  file_size : Option Nat
  uploaded_at : Option Nat
  md5_checksum : Option String
  original_status : String
  deleted_at : Nat
deriving DecidableEq

/-- The relational ledger: live table plus audit table. -/
structure DB where
  live : List BackupRecord
  deleted : List DeletedRecord
deriving DecidableEq

/-- `SELECT .. FROM s3_backups WHERE file_path = %s` with a unique index
on `file_path` (`file_in_database`, lines 110-113, and the fetch inside
`sync_deletions`). -/
def find_record (rows : List BackupRecord) (p : String) : Option BackupRecord :=
  rows.find? (fun r => r.file_path == p)

/-- `INSERT .. ON CONFLICT (file_path) DO UPDATE ..`: replace the (unique)
row whose `file_path` is `p` with `f` applied to it, or append the fresh
row when no row matches. -/
def upsertRec : List BackupRecord → String → (BackupRecord → BackupRecord) → BackupRecord →
    List BackupRecord
  | [], _, _, fresh => [fresh]
  | r :: rs, p, f, fresh =>
    if r.file_path == p then f r :: rs else r :: upsertRec rs p f fresh

/-- `insert_into_database` (lines 159-177): the conflict branch updates
`s3_key`, `file_size`, `md5_checksum`, `status` and `uploaded_at` (the
`source_type` column is not in its update list). -/
def insert_into_database (rows : List BackupRecord) (fp key st : String)
    (size : Option Nat) (md5 : Option String) (status : String) (now : Nat) :
    List BackupRecord :=
  upsertRec rows fp
    (fun r => { r with s3_key := key, file_size := size, md5_checksum := md5,
                       status := status, uploaded_at := some now })
    ⟨fp, key, st, size, md5, status, some now⟩

/-- The error-path upsert of `scan_and_upload` (lines 240-245):
`INSERT (file_path, s3_key, source_type, status='error') ON CONFLICT
(file_path) DO UPDATE SET status = 'error'`; the unlisted columns of a
fresh row are NULL. -/
def error_upsert (rows : List BackupRecord) (fp key st : String) : List BackupRecord :=
  upsertRec rows fp (fun r => { r with status := "error" })
    ⟨fp, key, st, none, none, "error", none⟩

theorem find_record_path {rows : List BackupRecord} {p : String} {r : BackupRecord}
    (h : find_record rows p = some r) : r.file_path = p := by
  have := List.find?_some h
  simpa using this

theorem find_upsert_self (rows : List BackupRecord) (p : String)
    (f : BackupRecord → BackupRecord) (fresh : BackupRecord)
    (hfresh : fresh.file_path = p) (hf : ∀ r, (f r).file_path = r.file_path) :
    find_record (upsertRec rows p f fresh) p
      = some ((find_record rows p).elim fresh f) := by
  induction rows with
  | nil =>
    show find_record [fresh] p = some fresh
    unfold find_record
    exact List.find?_cons_of_pos _ (by simp [hfresh])
  | cons r rs ih =>
    by_cases h : r.file_path = p
    · have e1 : upsertRec (r :: rs) p f fresh = f r :: rs := by
        simp [upsertRec, h]
      have e2 : find_record (r :: rs) p = some r := by
        unfold find_record
        exact List.find?_cons_of_pos _ (by simp [h])
      have e3 : find_record (f r :: rs) p = some (f r) := by
        unfold find_record
        exact List.find?_cons_of_pos _ (by simp [hf, h])
      rw [e1, e3, e2]
      rfl
    · have e1 : upsertRec (r :: rs) p f fresh = r :: upsertRec rs p f fresh := by
        simp [upsertRec, h]
      have e2 : find_record (r :: rs) p = find_record rs p := by
        unfold find_record
        exact List.find?_cons_of_neg _ (by simp [h])
      have e3 : find_record (r :: upsertRec rs p f fresh) p
          = find_record (upsertRec rs p f fresh) p := by
        unfold find_record
        exact List.find?_cons_of_neg _ (by simp [h])
      rw [e1, e3, e2, ih]

theorem find_upsert_other (rows : List BackupRecord) (p q : String)
    (f : BackupRecord → BackupRecord) (fresh : BackupRecord)
    (hfresh : fresh.file_path = p) (hf : ∀ r, (f r).file_path = r.file_path)
    (hq : q ≠ p) :
    find_record (upsertRec rows p f fresh) q = find_record rows q := by
  have hfq : ¬ (fresh.file_path = q) := by
    rw [hfresh]
    exact fun h2 => hq h2.symm
  induction rows with
  | nil =>
    show find_record [fresh] q = find_record [] q
    unfold find_record
    rw [List.find?_cons_of_neg _ (by simp [hfq])]
  | cons r rs ih =>
    by_cases h : r.file_path = p
    · have hrq : ¬ (r.file_path = q) := by
        rw [h]
        exact fun h2 => hq h2.symm
      have e1 : upsertRec (r :: rs) p f fresh = f r :: rs := by
        simp [upsertRec, h]
      have e2 : find_record (r :: rs) q = find_record rs q := by
        unfold find_record
        exact List.find?_cons_of_neg _ (by simp [hrq])
      have e3 : find_record (f r :: rs) q = find_record rs q := by
        unfold find_record
        exact List.find?_cons_of_neg _ (by simp [hf, hrq])
      rw [e1, e3, e2]
    · have e1 : upsertRec (r :: rs) p f fresh = r :: upsertRec rs p f fresh := by
        simp [upsertRec, h]
      by_cases hrq : r.file_path = q
      · have e2 : find_record (r :: rs) q = some r := by
          unfold find_record
          exact List.find?_cons_of_pos _ (by simp [hrq])
        have e3 : find_record (r :: upsertRec rs p f fresh) q = some r := by
          unfold find_record
          exact List.find?_cons_of_pos _ (by simp [hrq])
        rw [e1, e3, e2]
      · have e2 : find_record (r :: rs) q = find_record rs q := by
          unfold find_record
          exact List.find?_cons_of_neg _ (by simp [hrq])
        have e3 : find_record (r :: upsertRec rs p f fresh) q
            = find_record (upsertRec rs p f fresh) q := by
          unfold find_record
          exact List.find?_cons_of_neg _ (by simp [hrq])
        rw [e1, e3, e2, ih]

theorem upsert_of_find_none (rows : List BackupRecord) (p : String)
    (f : BackupRecord → BackupRecord) (fresh : BackupRecord)
    (h : find_record rows p = none) :
    upsertRec rows p f fresh = rows ++ [fresh] := by
  induction rows with
  | nil => rfl
  | cons r rs ih =>
    unfold find_record at h
    have hb : (r.file_path == p) = false := by
      simpa using List.find?_eq_none.mp h r (List.mem_cons_self r rs)
    have e2 : find_record rs p = none := by
      unfold find_record
      exact List.find?_eq_none.mpr
        (fun x hx => List.find?_eq_none.mp h x (List.mem_cons_of_mem r hx))
    simp [upsertRec, hb, ih e2]

/-- C10: when a row for the failing path already exists, the error-path
upsert changes only its status column to `error` (all other columns of the
row are untouched) and leaves every other row unchanged; when no row
exists, exactly the fresh row (freshly computed key, NULL size, checksum
and timestamp) is appended. -/
theorem c10_error_upsert_frame (rows : List BackupRecord) (p key st : String) :
    (∀ r, find_record rows p = some r →
      find_record (error_upsert rows p key st) p = some { r with status := "error" }
        ∧ ∀ q, q ≠ p → find_record (error_upsert rows p key st) q = find_record rows q)
    ∧ (find_record rows p = none →
      error_upsert rows p key st = rows ++ [⟨p, key, st, none, none, "error", none⟩]) := by
  refine ⟨fun r hr => ⟨?_, fun q hq => ?_⟩, fun hn => ?_⟩
  · rw [error_upsert, find_upsert_self rows p (fun r => { r with status := "error" })
      ⟨p, key, st, none, none, "error", none⟩ rfl (fun _ => rfl), hr]
    rfl
  · rw [error_upsert]
    exact find_upsert_other rows p q (fun r => { r with status := "error" })
      ⟨p, key, st, none, none, "error", none⟩ rfl (fun _ => rfl) hq
  · rw [error_upsert]
    exact upsert_of_find_none rows p _ _ hn

theorem c10_error_upsert_frame_witness :
    (find_record (error_upsert
        [⟨"/r/a.jpg", "internal/a.jpg", "internal", some 9, some "m", "uploaded", some 3⟩]
        "/r/a.jpg" "internal/other.jpg" "internal") "/r/a.jpg"
      = some ⟨"/r/a.jpg", "internal/a.jpg", "internal", some 9, some "m", "error", some 3⟩)
    ∧ (error_upsert [] "/r/b.jpg" "internal/b.jpg" "internal"
      = [⟨"/r/b.jpg", "internal/b.jpg", "internal", none, none, "error", none⟩]) := by
  constructor
  · exact ((c10_error_upsert_frame
      [⟨"/r/a.jpg", "internal/a.jpg", "internal", some 9, some "m", "uploaded", some 3⟩]
      "/r/a.jpg" "internal/other.jpg" "internal").1
      ⟨"/r/a.jpg", "internal/a.jpg", "internal", some 9, some "m", "uploaded", some 3⟩
      (by decide)).1
  · exact (c10_error_upsert_frame [] "/r/b.jpg" "internal/b.jpg" "internal").2 (by decide)

/-! ## Synchronizer model -/

/-- Step of the per-record deletion transaction at which an injected
failure (an exception in the Python code) occurs. -/
inductive DelStep where
  | fetch
  | audit
  | remote
  | livedel
deriving DecidableEq

/-- Ambient run environment: digest function backing hashlib.md5, the
filesystem's path resolution and existence tests, the bucket name, the
clock value `NOW()` returns, and the injected per-path failure of the
deletion transaction (`none` = no exception is raised for that path). -/
structure Env where
  digest : List Nat → String
  resolve : String → String
  fsExists : String → Bool
  bucket : String
  now : Nat
  failAt : String → Option DelStep

/-- One candidate file yielded by `find_image_files`, together with the
filesystem's behavior for it during this run: the `os.path.getsize`
outcome (`none` = raises), the content seen by the fingerprint read
(`none` = unreadable, the `except` branch of `calculate_md5`), and the
content seen by the later streaming-upload read (`none` = that open or
transfer raises). -/
structure Candidate where
  path : String
  size : Option Nat
  fp_read : Option (List Nat)
  upload_read : Option (List Nat)
deriving DecidableEq

/-- Logged decisions of a run (the structured log lines). -/
inductive LogEvent where
  | wouldUpload (path key : String) (size : Nat) (md5 : Option String)
  | uploadedLog (path key : String)
  | wouldDelete (path key : String)
  | deletedLog (path key : String)
  | skipSource (path : String)
  | errorLog (path : String)
  | warnNotFound (path : String)
deriving DecidableEq

/-- State threaded through `scan_and_upload` (lines 202-249). -/
structure SState where
  db : DB
  s3 : List String
  uploaded_count : Nat
  error_count : Nat
  skipped_count : Nat
  log : List LogEvent
deriving DecidableEq

/-- `calculate_md5` (lines 72-82): stream the file and digest it; any
read failure is caught and surfaces as the sentinel `None` (never an
exception). The argument is the content the fingerprint read observes,
`none` when the file cannot be read. -/
def calculate_md5 (digest : List Nat → String) (readResult : Option (List Nat)) :
    Option String :=
  match readResult with
  | none => none
  | some bytes => some (digest bytes)

/-- `upload_fileobj` against the bucket: the object at `key` now exists. -/
def s3_put (s3 : List String) (key : String) : List String :=
  if key ∈ s3 then s3 else s3 ++ [key]

/-- `s3_client.delete_object`: the object at `key` is gone. -/
def s3_delete (s3 : List String) (key : String) : List String :=
  s3.filter (fun k => k != key)

/-- `upload_file_to_s3` (lines 116-156): get the size (may raise),
fingerprint (never raises; may be `none`), and either log the intended
action (dry run) or stream the upload (may raise). `none` is an
exception propagating to the caller; `some` carries size, checksum, the
bucket contents afterwards, and the log lines. -/
def upload_file_to_s3 (env : Env) (c : Candidate) (s3key : String) (dry : Bool)
    (s3 : List String) : Option (Nat × Option String × List String × List LogEvent) :=
  match c.size with
  | none => none
  | some n =>
    let md5 := calculate_md5 env.digest c.fp_read
    if dry then some (n, md5, s3, [LogEvent.wouldUpload c.path s3key n md5])
    else
      match c.upload_read with
      | none => none
      | some _ => some (n, md5, s3_put s3 s3key, [LogEvent.uploadedLog c.path s3key])

/-- The loop body of `scan_and_upload` (lines 214-247): skip when a
ledger record exists with status uploaded; otherwise compute the key and
upload; on success (non-dry) upsert an uploaded record; on any exception
count the error and (non-dry) upsert the record with status error. -/
def process_candidate (env : Env) (source_type spr : String) (dry : Bool)
    (st0 : SState) (c : Candidate) : SState :=
  if Option.any (fun r => r.status == "uploaded") (find_record st0.db.live c.path) then
    { st0 with skipped_count := st0.skipped_count + 1 }
  else
    match upload_file_to_s3 env c (get_s3_key env.resolve c.path source_type spr) dry
        st0.s3 with
    | some (n, md5, s3A, lg) =>
      if dry then
        { st0 with s3 := s3A, uploaded_count := st0.uploaded_count + 1,
                   log := st0.log ++ lg }
      else
        { st0 with
            db := { st0.db with
              live := insert_into_database st0.db.live c.path
                        (get_s3_key env.resolve c.path source_type spr) source_type
                        (some n) md5 "uploaded" env.now },
            s3 := s3A,
            uploaded_count := st0.uploaded_count + 1,
            log := st0.log ++ lg }
    | none =>
      if dry then { st0 with error_count := st0.error_count + 1 }
      else
        { st0 with
            db := { st0.db with
              live := error_upsert st0.db.live c.path
                        (get_s3_key env.resolve c.path source_type spr) source_type },
            error_count := st0.error_count + 1 }

/-- `scan_and_upload` (lines 202-249): skip a missing source root, else
resolve it once and process every candidate in order. -/
def scan_and_upload (env : Env) (source_type source_path : String)
    (cs : List Candidate) (dry : Bool) (db : DB) (s3 : List String) : SState :=
  if env.fsExists source_path then
    List.foldl (process_candidate env source_type (env.resolve source_path) dry)
      ⟨db, s3, 0, 0, 0, []⟩ cs
  else ⟨db, s3, 0, 0, 0, [LogEvent.skipSource source_path]⟩

/-- The skip test of line 218: a record exists and its status is
uploaded. -/
def isUploadedB (rows : List BackupRecord) (p : String) : Bool :=
  Option.any (fun r => r.status == "uploaded") (find_record rows p)

/-- A record exists and is in a terminal state (uploaded or error). -/
def terminalB (rows : List BackupRecord) (p : String) : Bool :=
  Option.any (fun r => r.status == "uploaded" || r.status == "error") (find_record rows p)

theorem find_error_upsert_self (rows : List BackupRecord) (p key st : String) :
    find_record (error_upsert rows p key st) p
      = some ((find_record rows p).elim ⟨p, key, st, none, none, "error", none⟩
          (fun r => { r with status := "error" })) :=
  find_upsert_self rows p (fun r => { r with status := "error" })
    ⟨p, key, st, none, none, "error", none⟩ rfl (fun _ => rfl)

theorem find_error_upsert_other (rows : List BackupRecord) (p key st q : String)
    (hq : q ≠ p) :
    find_record (error_upsert rows p key st) q = find_record rows q :=
  find_upsert_other rows p q (fun r => { r with status := "error" })
    ⟨p, key, st, none, none, "error", none⟩ rfl (fun _ => rfl) hq

theorem find_insert_self (rows : List BackupRecord) (p key st : String)
    (size : Option Nat) (md5 : Option String) (status : String) (now : Nat) :
    find_record (insert_into_database rows p key st size md5 status now) p
      = some ((find_record rows p).elim ⟨p, key, st, size, md5, status, some now⟩
          (fun r => { r with s3_key := key, file_size := size, md5_checksum := md5,
                             status := status, uploaded_at := some now })) :=
  find_upsert_self rows p
    (fun r => { r with s3_key := key, file_size := size, md5_checksum := md5,
                       status := status, uploaded_at := some now })
    ⟨p, key, st, size, md5, status, some now⟩ rfl (fun _ => rfl)

theorem find_insert_other (rows : List BackupRecord) (p key st : String)
    (size : Option Nat) (md5 : Option String) (status : String) (now : Nat) (q : String)
    (hq : q ≠ p) :
    find_record (insert_into_database rows p key st size md5 status now) q
      = find_record rows q :=
  find_upsert_other rows p q
    (fun r => { r with s3_key := key, file_size := size, md5_checksum := md5,
                       status := status, uploaded_at := some now })
    ⟨p, key, st, size, md5, status, some now⟩ rfl (fun _ => rfl) hq

theorem process_skip (env : Env) (source_type spr : String) (dry : Bool)
    (st0 : SState) (c : Candidate)
    (h : isUploadedB st0.db.live c.path = true) :
    process_candidate env source_type spr dry st0 c
      = { st0 with skipped_count := st0.skipped_count + 1 } := by
  unfold isUploadedB at h
  unfold process_candidate
  rw [h]
  simp

theorem process_success (env : Env) (source_type spr : String) (st0 : SState)
    (c : Candidate) (n : Nat) (bs : List Nat)
    (hn : c.size = some n) (hbs : c.upload_read = some bs)
    (hns : isUploadedB st0.db.live c.path = false) :
    process_candidate env source_type spr false st0 c
      = { st0 with
          db := { st0.db with
            live := insert_into_database st0.db.live c.path
              (get_s3_key env.resolve c.path source_type spr) source_type (some n)
              (calculate_md5 env.digest c.fp_read) "uploaded" env.now },
          s3 := s3_put st0.s3 (get_s3_key env.resolve c.path source_type spr),
          uploaded_count := st0.uploaded_count + 1,
          log := st0.log ++ [LogEvent.uploadedLog c.path
            (get_s3_key env.resolve c.path source_type spr)] } := by
  unfold isUploadedB at hns
  unfold process_candidate
  rw [hns]
  simp only [Bool.false_eq_true, if_false]
  have hu : upload_file_to_s3 env c (get_s3_key env.resolve c.path source_type spr) false
      st0.s3
      = some (n, calculate_md5 env.digest c.fp_read,
          s3_put st0.s3 (get_s3_key env.resolve c.path source_type spr),
          [LogEvent.uploadedLog c.path (get_s3_key env.resolve c.path source_type spr)]) := by
    unfold upload_file_to_s3
    rw [hn, hbs]
    rfl
  rw [hu]

theorem process_error (env : Env) (source_type spr : String) (st0 : SState)
    (c : Candidate)
    (hfail : c.size = none ∨ c.upload_read = none)
    (hns : isUploadedB st0.db.live c.path = false) :
    process_candidate env source_type spr false st0 c
      = { st0 with
          db := { st0.db with
            live := error_upsert st0.db.live c.path
              (get_s3_key env.resolve c.path source_type spr) source_type },
          error_count := st0.error_count + 1 } := by
  unfold isUploadedB at hns
  unfold process_candidate
  rw [hns]
  simp only [Bool.false_eq_true, if_false]
  have hu : upload_file_to_s3 env c (get_s3_key env.resolve c.path source_type spr) false
      st0.s3 = none := by
    unfold upload_file_to_s3
    rcases hfail with h | h
    · rw [h]
    · cases hsz : c.size with
      | none => rfl
      | some m => rw [h]; simp
  rw [hu]

theorem process_find_other (env : Env) (source_type spr : String) (dry : Bool)
    (st0 : SState) (c : Candidate) (q : String) (hq : q ≠ c.path) :
    find_record (process_candidate env source_type spr dry st0 c).db.live q
      = find_record st0.db.live q := by
  unfold process_candidate
  by_cases h : Option.any (fun r => r.status == "uploaded")
      (find_record st0.db.live c.path) = true
  · rw [h]
    simp
  · rw [Bool.not_eq_true] at h
    rw [h]
    simp only [Bool.false_eq_true, if_false]
    cases hu : upload_file_to_s3 env c (get_s3_key env.resolve c.path source_type spr) dry
        st0.s3 with
    | none =>
      by_cases hd : dry
      · simp [hd]
      · simp [hd, find_error_upsert_other _ _ _ _ _ hq]
    | some v =>
      obtain ⟨n, md5, s3A, lg⟩ := v
      by_cases hd : dry
      · simp [hd]
      · simp [hd]
        exact find_insert_other _ _ _ _ _ _ _ _ _ hq

theorem isUploadedB_terminal (rows : List BackupRecord) (p : String)
    (h : isUploadedB rows p = true) : terminalB rows p = true := by
  unfold isUploadedB at h
  unfold terminalB
  cases hf : find_record rows p with
  | none => rw [hf] at h; simp [Option.any] at h
  | some r =>
    rw [hf] at h
    simp [Option.any] at h ⊢
    exact Or.inl h

theorem process_preserves_uploaded (env : Env) (source_type spr : String) (dry : Bool)
    (st0 : SState) (c : Candidate) (p : String)
    (h : isUploadedB st0.db.live p = true) :
    isUploadedB (process_candidate env source_type spr dry st0 c).db.live p = true := by
  by_cases hpc : p = c.path
  · subst hpc
    rw [process_skip env source_type spr dry st0 c h]
    exact h
  · unfold isUploadedB at h ⊢
    rw [process_find_other env source_type spr dry st0 c p hpc]
    exact h

theorem process_establish_uploaded (env : Env) (source_type spr : String)
    (st0 : SState) (c : Candidate)
    (hsz : c.size.isSome = true) (hup : c.upload_read.isSome = true) :
    isUploadedB (process_candidate env source_type spr false st0 c).db.live c.path
      = true := by
  obtain ⟨n, hn⟩ := Option.isSome_iff_exists.mp hsz
  obtain ⟨bs, hbs⟩ := Option.isSome_iff_exists.mp hup
  cases hskip : isUploadedB st0.db.live c.path with
  | true =>
    rw [process_skip env source_type spr false st0 c hskip]
    exact hskip
  | false =>
    rw [process_success env source_type spr st0 c n bs hn hbs hskip]
    unfold isUploadedB
    rw [show ({ st0 with
          db := { st0.db with
            live := insert_into_database st0.db.live c.path
              (get_s3_key env.resolve c.path source_type spr) source_type (some n)
              (calculate_md5 env.digest c.fp_read) "uploaded" env.now },
          s3 := s3_put st0.s3 (get_s3_key env.resolve c.path source_type spr),
          uploaded_count := st0.uploaded_count + 1,
          log := st0.log ++ [LogEvent.uploadedLog c.path
            (get_s3_key env.resolve c.path source_type spr)] } : SState).db.live
        = insert_into_database st0.db.live c.path
            (get_s3_key env.resolve c.path source_type spr) source_type (some n)
            (calculate_md5 env.digest c.fp_read) "uploaded" env.now from rfl]
    rw [find_insert_self]
    cases hfr : find_record st0.db.live c.path with
    | none => simp [Option.any]
    | some r => simp [Option.any]

theorem foldl_preserves_uploaded (env : Env) (source_type spr : String) (dry : Bool) :
    ∀ (cs : List Candidate) (st0 : SState) (p : String),
      isUploadedB st0.db.live p = true →
      isUploadedB (List.foldl (process_candidate env source_type spr dry) st0 cs).db.live p
        = true := by
  intro cs
  induction cs with
  | nil => intro st0 p h; exact h
  | cons c cs ih =>
    intro st0 p h
    rw [List.foldl_cons]
    exact ih _ p (process_preserves_uploaded env source_type spr dry st0 c p h)

theorem foldl_establishes_uploaded (env : Env) (source_type spr : String) :
    ∀ (cs : List Candidate) (st0 : SState),
      (∀ c ∈ cs, c.size.isSome = true ∧ c.upload_read.isSome = true) →
      ∀ c ∈ cs,
        isUploadedB
          (List.foldl (process_candidate env source_type spr false) st0 cs).db.live c.path
          = true := by
  intro cs
  induction cs with
  | nil => intro st0 _ c hc; exact absurd hc (List.not_mem_nil c)
  | cons d ds ih =>
    intro st0 hok c hc
    rw [List.foldl_cons]
    rcases List.mem_cons.mp hc with rfl | hc2
    · exact foldl_preserves_uploaded env source_type spr false ds _ c.path
        (process_establish_uploaded env source_type spr st0 c
          (hok c (List.mem_cons_self c ds)).1 (hok c (List.mem_cons_self c ds)).2)
    · exact ih _ (fun e he => hok e (List.mem_cons_of_mem d he)) c hc2

theorem foldl_all_uploaded_frame (env : Env) (source_type spr : String) (dry : Bool) :
    ∀ (cs : List Candidate) (st0 : SState),
      (∀ c ∈ cs, isUploadedB st0.db.live c.path = true) →
      (List.foldl (process_candidate env source_type spr dry) st0 cs).db = st0.db
      ∧ (List.foldl (process_candidate env source_type spr dry) st0 cs).s3 = st0.s3
      ∧ (List.foldl (process_candidate env source_type spr dry) st0 cs).uploaded_count
          = st0.uploaded_count := by
  intro cs
  induction cs with
  | nil => intro st0 _; exact ⟨rfl, rfl, rfl⟩
  | cons c cs ih =>
    intro st0 h
    rw [List.foldl_cons,
      process_skip env source_type spr dry st0 c (h c (List.mem_cons_self c cs))]
    exact ih { st0 with skipped_count := st0.skipped_count + 1 }
      (fun e he => h e (List.mem_cons_of_mem c he))

theorem foldl_upload_count (env : Env) (source_type spr : String)
    (dbRef : List BackupRecord) :
    ∀ (cs : List Candidate) (st0 : SState),
      (∀ c ∈ cs, c.size.isSome = true ∧ c.upload_read.isSome = true) →
      (cs.map Candidate.path).Nodup →
      (∀ c ∈ cs, find_record st0.db.live c.path = find_record dbRef c.path) →
      (List.foldl (process_candidate env source_type spr false) st0 cs).uploaded_count
        = st0.uploaded_count
          + (cs.filter (fun c => !(isUploadedB dbRef c.path))).length := by
  intro cs
  induction cs with
  | nil => intro st0 _ _ _; simp
  | cons c cs ih =>
    intro st0 hok hnd hsame
    have hfc : find_record st0.db.live c.path = find_record dbRef c.path :=
      hsame c (List.mem_cons_self c cs)
    have hnd2 : (cs.map Candidate.path).Nodup := (List.nodup_cons.mp hnd).2
    have hcnot : c.path ∉ cs.map Candidate.path := (List.nodup_cons.mp hnd).1
    rw [List.foldl_cons]
    cases hup : isUploadedB dbRef c.path with
    | true =>
      have hsk : isUploadedB st0.db.live c.path = true := by
        unfold isUploadedB at hup ⊢
        rw [hfc]
        exact hup
      rw [process_skip env source_type spr false st0 c hsk,
        List.filter_cons_of_neg (by simp [hup])]
      exact ih { st0 with skipped_count := st0.skipped_count + 1 }
        (fun e he => hok e (List.mem_cons_of_mem c he)) hnd2
        (fun e he => hsame e (List.mem_cons_of_mem c he))
    | false =>
      have hsk : isUploadedB st0.db.live c.path = false := by
        unfold isUploadedB at hup ⊢
        rw [hfc]
        exact hup
      obtain ⟨n, hn⟩ := Option.isSome_iff_exists.mp (hok c (List.mem_cons_self c cs)).1
      obtain ⟨bs, hbs⟩ := Option.isSome_iff_exists.mp (hok c (List.mem_cons_self c cs)).2
      rw [process_success env source_type spr st0 c n bs hn hbs hsk,
        List.filter_cons_of_pos (by simp [hup])]
      have hsame2 : ∀ e ∈ cs,
          find_record (insert_into_database st0.db.live c.path
            (get_s3_key env.resolve c.path source_type spr) source_type (some n)
            (calculate_md5 env.digest c.fp_read) "uploaded" env.now) e.path
          = find_record dbRef e.path := by
        intro e he
        have hne : e.path ≠ c.path := by
          intro heq
          exact hcnot (heq ▸ List.mem_map_of_mem Candidate.path he)
        rw [find_insert_other _ _ _ _ _ _ _ _ _ hne]
        exact hsame e (List.mem_cons_of_mem c he)
      have h2 := ih
        { st0 with
          db := { st0.db with
            live := insert_into_database st0.db.live c.path
              (get_s3_key env.resolve c.path source_type spr) source_type (some n)
              (calculate_md5 env.digest c.fp_read) "uploaded" env.now },
          s3 := s3_put st0.s3 (get_s3_key env.resolve c.path source_type spr),
          uploaded_count := st0.uploaded_count + 1,
          log := st0.log ++ [LogEvent.uploadedLog c.path
            (get_s3_key env.resolve c.path source_type spr)] }
        (fun e he => hok e (List.mem_cons_of_mem c he)) hnd2 hsame2
      rw [h2, List.length_cons]
      show st0.uploaded_count + 1
          + (List.filter (fun c => !isUploadedB dbRef c.path) cs).length
        = st0.uploaded_count
          + ((List.filter (fun c => !isUploadedB dbRef c.path) cs).length + 1)
      omega

/-- C1: a candidate whose ledger record exists with status uploaded is
skipped without uploading or writing the ledger; consequently a non-dry
upload pass uploads exactly the candidates that are not already
archived, and a second pass over the unchanged source tree uploads zero
files and changes neither the ledger nor the bucket. -/
theorem c1_upload_idempotent (env : Env) (source_type source_path : String)
    (cs : List Candidate) (db0 : DB) (s3v : List String) (r1 r2 : SState)
    (hroot : env.fsExists source_path = true)
    (hok : ∀ c ∈ cs, c.size.isSome = true ∧ c.upload_read.isSome = true)
    (hnd : (cs.map Candidate.path).Nodup)
    (hr1 : r1 = scan_and_upload env source_type source_path cs false db0 s3v)
    (hr2 : r2 = scan_and_upload env source_type source_path cs false r1.db r1.s3) :
    (∀ (st0 : SState) (c : Candidate) (dry : Bool),
      isUploadedB st0.db.live c.path = true →
      process_candidate env source_type (env.resolve source_path) dry st0 c
        = { st0 with skipped_count := st0.skipped_count + 1 })
    ∧ r1.uploaded_count = (cs.filter (fun c => !(isUploadedB db0.live c.path))).length
    ∧ r2.db = r1.db ∧ r2.s3 = r1.s3 ∧ r2.uploaded_count = 0 := by
  have hscan : ∀ (d : DB) (s : List String),
      scan_and_upload env source_type source_path cs false d s
        = List.foldl (process_candidate env source_type (env.resolve source_path) false)
            ⟨d, s, 0, 0, 0, []⟩ cs := by
    intro d s
    unfold scan_and_upload
    rw [if_pos hroot]
  have hall : ∀ c ∈ cs, isUploadedB r1.db.live c.path = true := by
    intro c hc
    rw [hr1, hscan]
    exact foldl_establishes_uploaded env source_type (env.resolve source_path) cs
      ⟨db0, s3v, 0, 0, 0, []⟩ hok c hc
  refine ⟨fun st0 c dry h =>
      process_skip env source_type (env.resolve source_path) dry st0 c h, ?_, ?_, ?_, ?_⟩
  · rw [hr1, hscan, foldl_upload_count env source_type (env.resolve source_path) db0.live
      cs ⟨db0, s3v, 0, 0, 0, []⟩ hok hnd (fun c _ => rfl)]
    simp
  · rw [hr2, hscan]
    exact (foldl_all_uploaded_frame env source_type (env.resolve source_path) false cs
      ⟨r1.db, r1.s3, 0, 0, 0, []⟩ hall).1
  · rw [hr2, hscan]
    exact (foldl_all_uploaded_frame env source_type (env.resolve source_path) false cs
      ⟨r1.db, r1.s3, 0, 0, 0, []⟩ hall).2.1
  · rw [hr2, hscan]
    exact (foldl_all_uploaded_frame env source_type (env.resolve source_path) false cs
      ⟨r1.db, r1.s3, 0, 0, 0, []⟩ hall).2.2

/-- Sample environment used by concrete witnesses: identity resolution,
every path accessible, a fixed digest, no injected failures. -/
def envA : Env :=
  { digest := fun _ => "d41d8cd98f00b204e9800998ecf8427e",
    resolve := fun s => s,
    fsExists := fun _ => true,
    bucket := "glacier-bucket",
    now := 5,
    failAt := fun _ => none }

theorem c1_upload_idempotent_witness :
    (scan_and_upload envA "internal" "/r" [⟨"/r/a.jpg", some 4, some [1], some [1]⟩]
        false ⟨[], []⟩ []).uploaded_count = 1
    ∧ (scan_and_upload envA "internal" "/r" [⟨"/r/a.jpg", some 4, some [1], some [1]⟩]
        false
        (scan_and_upload envA "internal" "/r" [⟨"/r/a.jpg", some 4, some [1], some [1]⟩]
          false ⟨[], []⟩ []).db
        (scan_and_upload envA "internal" "/r" [⟨"/r/a.jpg", some 4, some [1], some [1]⟩]
          false ⟨[], []⟩ []).s3).uploaded_count = 0 := by
  have h := c1_upload_idempotent envA "internal" "/r"
    [⟨"/r/a.jpg", some 4, some [1], some [1]⟩] ⟨[], []⟩ [] _ _
    (by decide) (by decide) (by decide) rfl rfl
  exact ⟨h.2.1.trans (by decide), h.2.2.2.2⟩

/-- C9: for a candidate readable at upload time but unreadable during
fingerprinting, `calculate_md5` yields the sentinel `none` without
raising, the upload still succeeds (one more uploaded, no new error),
and the upserted ledger record has status uploaded with a NULL
`md5_checksum`. -/
theorem c9_uploaded_with_null_checksum (env : Env) (source_type spr : String)
    (st0 : SState) (c : Candidate) (n : Nat) (bs : List Nat)
    (hfp : c.fp_read = none) (hn : c.size = some n) (hbs : c.upload_read = some bs)
    (hns : isUploadedB st0.db.live c.path = false) :
    calculate_md5 env.digest c.fp_read = none
    ∧ (process_candidate env source_type spr false st0 c).uploaded_count
        = st0.uploaded_count + 1
    ∧ (process_candidate env source_type spr false st0 c).error_count = st0.error_count
    ∧ ∃ r, find_record (process_candidate env source_type spr false st0 c).db.live c.path
          = some r
        ∧ r.status = "uploaded" ∧ r.md5_checksum = none ∧ r.file_size = some n := by
  have hmd : calculate_md5 env.digest c.fp_read = none := by
    rw [hfp]
    rfl
  refine ⟨hmd, ?_, ?_, ?_⟩
  · rw [process_success env source_type spr st0 c n bs hn hbs hns]
  · rw [process_success env source_type spr st0 c n bs hn hbs hns]
  · rw [process_success env source_type spr st0 c n bs hn hbs hns]
    show ∃ r, find_record (insert_into_database st0.db.live c.path
        (get_s3_key env.resolve c.path source_type spr) source_type (some n)
        (calculate_md5 env.digest c.fp_read) "uploaded" env.now) c.path = some r
      ∧ r.status = "uploaded" ∧ r.md5_checksum = none ∧ r.file_size = some n
    rw [hmd, find_insert_self]
    cases hfr : find_record st0.db.live c.path with
    | none => exact ⟨_, rfl, rfl, rfl, rfl⟩
    | some r => exact ⟨_, rfl, rfl, rfl, rfl⟩

theorem c9_uploaded_with_null_checksum_witness :
    calculate_md5 envA.digest none = none
    ∧ (process_candidate envA "internal" "/r" false ⟨⟨[], []⟩, [], 0, 0, 0, []⟩
        ⟨"/r/x.jpg", some 4, none, some [1, 2]⟩).uploaded_count = 0 + 1
    ∧ (process_candidate envA "internal" "/r" false ⟨⟨[], []⟩, [], 0, 0, 0, []⟩
        ⟨"/r/x.jpg", some 4, none, some [1, 2]⟩).error_count = 0
    ∧ ∃ r, find_record (process_candidate envA "internal" "/r" false
          ⟨⟨[], []⟩, [], 0, 0, 0, []⟩
          ⟨"/r/x.jpg", some 4, none, some [1, 2]⟩).db.live "/r/x.jpg" = some r
        ∧ r.status = "uploaded" ∧ r.md5_checksum = none ∧ r.file_size = some 4 :=
  c9_uploaded_with_null_checksum envA "internal" "/r" ⟨⟨[], []⟩, [], 0, 0, 0, []⟩
    ⟨"/r/x.jpg", some 4, none, some [1, 2]⟩ 4 [1, 2] rfl rfl rfl (by decide)

theorem terminalB_error_upsert (rows : List BackupRecord) (p key st : String) :
    terminalB (error_upsert rows p key st) p = true := by
  unfold terminalB
  rw [find_error_upsert_self]
  cases hfr : find_record rows p with
  | none => simp [Option.any]
  | some r => simp [Option.any]

theorem terminalB_insert_uploaded (rows : List BackupRecord) (p key st : String)
    (size : Option Nat) (md5 : Option String) (now : Nat) :
    terminalB (insert_into_database rows p key st size md5 "uploaded" now) p = true := by
  unfold terminalB
  rw [find_insert_self]
  cases hfr : find_record rows p with
  | none => simp [Option.any]
  | some r => simp [Option.any]

theorem process_establish_terminal (env : Env) (source_type spr : String)
    (st0 : SState) (c : Candidate) :
    terminalB (process_candidate env source_type spr false st0 c).db.live c.path
      = true := by
  cases hskip : isUploadedB st0.db.live c.path with
  | true =>
    rw [process_skip env source_type spr false st0 c hskip]
    exact isUploadedB_terminal _ _ hskip
  | false =>
    cases hn : c.size with
    | none =>
      rw [process_error env source_type spr st0 c (Or.inl hn) hskip]
      exact terminalB_error_upsert _ _ _ _
    | some n =>
      cases hbs : c.upload_read with
      | none =>
        rw [process_error env source_type spr st0 c (Or.inr hbs) hskip]
        exact terminalB_error_upsert _ _ _ _
      | some bs =>
        rw [process_success env source_type spr st0 c n bs hn hbs hskip]
        exact terminalB_insert_uploaded _ _ _ _ _ _ _

theorem process_preserves_terminal (env : Env) (source_type spr : String)
    (st0 : SState) (c : Candidate) (p : String)
    (h : terminalB st0.db.live p = true) :
    terminalB (process_candidate env source_type spr false st0 c).db.live p = true := by
  by_cases hpc : p = c.path
  · subst hpc
    exact process_establish_terminal env source_type spr st0 c
  · unfold terminalB at h ⊢
    rw [process_find_other env source_type spr false st0 c p hpc]
    exact h

theorem foldl_preserves_terminal (env : Env) (source_type spr : String) :
    ∀ (cs : List Candidate) (st0 : SState) (p : String),
      terminalB st0.db.live p = true →
      terminalB (List.foldl (process_candidate env source_type spr false) st0 cs).db.live p
        = true := by
  intro cs
  induction cs with
  | nil => intro st0 p h; exact h
  | cons c cs ih =>
    intro st0 p h
    rw [List.foldl_cons]
    exact ih _ p (process_preserves_terminal env source_type spr st0 c p h)

theorem foldl_establishes_terminal (env : Env) (source_type spr : String) :
    ∀ (cs : List Candidate) (st0 : SState),
      ∀ c ∈ cs,
        terminalB
          (List.foldl (process_candidate env source_type spr false) st0 cs).db.live c.path
          = true := by
  intro cs
  induction cs with
  | nil => intro st0 c hc; exact absurd hc (List.not_mem_nil c)
  | cons d ds ih =>
    intro st0 c hc
    rw [List.foldl_cons]
    rcases List.mem_cons.mp hc with rfl | hc2
    · exact foldl_preserves_terminal env source_type spr ds _ c.path
        (process_establish_terminal env source_type spr st0 c)
    · exact ih _ c hc2

/-- C4: in a non-dry upload pass every candidate of the batch ends with a
ledger record in a terminal uploaded-or-error state no matter which
candidates throw, and a candidate that throws during its upload (getsize
or the streamed upload raising) has its record upserted with status
error — with the remote key computed for it — after which processing
continues with the remaining candidates. -/
theorem c4_per_file_isolation (env : Env) (source_type source_path : String)
    (cs : List Candidate) (db0 : DB) (s3v : List String)
    (hroot : env.fsExists source_path = true) :
    (∀ c ∈ cs,
      terminalB (scan_and_upload env source_type source_path cs false db0 s3v).db.live
        c.path = true)
    ∧ (∀ (st0 : SState) (c : Candidate),
        (c.size = none ∨ c.upload_read = none) →
        isUploadedB st0.db.live c.path = false →
        process_candidate env source_type (env.resolve source_path) false st0 c
          = { st0 with
              db := { st0.db with
                live := error_upsert st0.db.live c.path
                  (get_s3_key env.resolve c.path source_type (env.resolve source_path))
                  source_type },
              error_count := st0.error_count + 1 }) := by
  constructor
  · intro c hc
    unfold scan_and_upload
    rw [if_pos hroot]
    exact foldl_establishes_terminal env source_type (env.resolve source_path) cs
      ⟨db0, s3v, 0, 0, 0, []⟩ c hc
  · intro st0 c hfail hns
    exact process_error env source_type (env.resolve source_path) st0 c hfail hns

theorem c4_per_file_isolation_witness :
    (terminalB (scan_and_upload envA "internal" "/r"
        [⟨"/r/a.jpg", some 1, some [0], some [0]⟩, ⟨"/r/b.jpg", some 2, none, none⟩,
          ⟨"/r/c.jpg", some 3, some [1], some [1]⟩] false ⟨[], []⟩ []).db.live
      "/r/a.jpg" = true)
    ∧ (terminalB (scan_and_upload envA "internal" "/r"
        [⟨"/r/a.jpg", some 1, some [0], some [0]⟩, ⟨"/r/b.jpg", some 2, none, none⟩,
          ⟨"/r/c.jpg", some 3, some [1], some [1]⟩] false ⟨[], []⟩ []).db.live
      "/r/b.jpg" = true)
    ∧ (terminalB (scan_and_upload envA "internal" "/r"
        [⟨"/r/a.jpg", some 1, some [0], some [0]⟩, ⟨"/r/b.jpg", some 2, none, none⟩,
          ⟨"/r/c.jpg", some 3, some [1], some [1]⟩] false ⟨[], []⟩ []).db.live
      "/r/c.jpg" = true) := by
  have h := c4_per_file_isolation envA "internal" "/r"
    [⟨"/r/a.jpg", some 1, some [0], some [0]⟩, ⟨"/r/b.jpg", some 2, none, none⟩,
      ⟨"/r/c.jpg", some 3, some [1], some [1]⟩] ⟨[], []⟩ [] (by decide)
  exact ⟨h.1 ⟨"/r/a.jpg", some 1, some [0], some [0]⟩ (by decide),
    h.1 ⟨"/r/b.jpg", some 2, none, none⟩ (by decide),
    h.1 ⟨"/r/c.jpg", some 3, some [1], some [1]⟩ (by decide)⟩

/-! ## Deletion pass -/

/-- PostgreSQL `LIKE` matching over character lists: `%` matches any
sequence, `_` any single character, backslash escapes the next pattern
character. Defined with explicit fuel (each recursive call shrinks
pattern-plus-string, so the fuel chosen in `likeMatch` always
suffices). -/
def likeMatchF : Nat → List Char → List Char → Bool
  | 0, _, _ => false
  | _ + 1, [], s => s.isEmpty
  | fuel + 1, c :: ps, s =>
    if c = '%' then
      match s with
      | [] => likeMatchF fuel ps []
      | d :: ss => likeMatchF fuel ps (d :: ss) || likeMatchF fuel (c :: ps) ss
    else if c = '_' then
      match s with
      | [] => false
      | _ :: ss => likeMatchF fuel ps ss
    else if c = '\\' then
      match ps with
      | [] => false
      | e :: ps2 =>
        match s with
        | [] => false
        | d :: ss => e == d && likeMatchF fuel ps2 ss
    else
      match s with
      | [] => false
      | d :: ss => c == d && likeMatchF fuel ps ss

/-- `pattern LIKE string` with always-sufficient fuel. -/
def likeMatch (p s : List Char) : Bool :=
  likeMatchF (p.length + s.length + 1) p s

/-- Path containment in the ordinary sense: `p` equals the root or lies
strictly below it (root plus separator is a string prefix). -/
def isUnder (root p : String) : Bool :=
  p == root || strStartsWith p (root ++ "/")

/-- Outcome of one deletion transaction: committed, rolled back after an
exception, or rolled back because the fetch found no row. -/
inductive DelOutcome where
  | ok
  | failed
  | notFound
deriving DecidableEq

/-- The audit row written by `sync_deletions` (lines 287-296) from the
fetched record, with `s3://bucket/key` as the full address and `NOW()`
as `deleted_at`. -/
def mkAuditRow (bucket : String) (r : BackupRecord) (now : Nat) : DeletedRecord :=
  ⟨r.file_path, r.s3_key, "s3://" ++ bucket ++ "/" ++ r.s3_key, r.source_type,
    r.file_size, r.uploaded_at, r.md5_checksum, r.status, now⟩

/-- One per-record deletion transaction (lines 279-316): fetch the row,
insert the audit row, delete the remote object, delete the live row,
commit; any raising step rolls the transaction back, so the two tables
change only at the final commit, while a remote delete that succeeded
before a later failure is not undone (S3 is outside the transaction). -/
def delete_one (env : Env) (db : DB) (s3 : List String) (fp key : String) :
    DB × List String × DelOutcome :=
  match env.failAt fp, find_record db.live fp with
  | some DelStep.fetch, none => (db, s3, DelOutcome.failed)
  | some DelStep.fetch, some _ => (db, s3, DelOutcome.failed)
  | none, none => (db, s3, DelOutcome.notFound)
  | some DelStep.audit, none => (db, s3, DelOutcome.notFound)
  | some DelStep.remote, none => (db, s3, DelOutcome.notFound)
  | some DelStep.livedel, none => (db, s3, DelOutcome.notFound)
  | some DelStep.audit, some _ => (db, s3, DelOutcome.failed)
  | some DelStep.remote, some _ => (db, s3, DelOutcome.failed)
  | some DelStep.livedel, some _ => (db, s3_delete s3 key, DelOutcome.failed)
  | none, some r =>
    ({ live := db.live.filter (fun q => q.file_path != fp),
       deleted := db.deleted ++ [mkAuditRow env.bucket r env.now] },
      s3_delete s3 key, DelOutcome.ok)

/-- State threaded through the deletion loop. -/
structure DState where
  db : DB
  s3 : List String
  deleted_count : Nat
  error_count : Nat
  log : List LogEvent
deriving DecidableEq

/-- Loop body of `sync_deletions` (lines 271-316): a pair from the scan
query; nothing happens when the local file still exists; dry run only
logs; otherwise run the deletion transaction and count its outcome. -/
def del_step (env : Env) (dry : Bool) (st0 : DState) (pk : String × String) : DState :=
  if env.fsExists pk.1 then st0
  else if dry then
    { st0 with deleted_count := st0.deleted_count + 1,
               log := st0.log ++ [LogEvent.wouldDelete pk.1 pk.2] }
  else
    match delete_one env st0.db st0.s3 pk.1 pk.2 with
    | (db2, s32, DelOutcome.ok) =>
      { st0 with db := db2, s3 := s32, deleted_count := st0.deleted_count + 1,
                 log := st0.log ++ [LogEvent.deletedLog pk.1 pk.2] }
    | (db2, s32, DelOutcome.failed) =>
      { st0 with db := db2, s3 := s32, error_count := st0.error_count + 1,
                 log := st0.log ++ [LogEvent.errorLog pk.1] }
    | (db2, s32, DelOutcome.notFound) =>
      { st0 with db := db2, s3 := s32, log := st0.log ++ [LogEvent.warnNotFound pk.1] }

/-- The scan query of lines 264-269: `SELECT file_path, s3_key FROM
s3_backups WHERE source_type = %s AND status = 'uploaded' AND file_path
LIKE '{resolved_root}%'` — the records whose path matches the LIKE
pattern built from the resolved source root. -/
def considered (source_type spr : String) (db : DB) : List BackupRecord :=
  db.live.filter (fun r =>
    r.source_type == source_type && r.status == "uploaded"
      && likeMatch (spr ++ "%").data r.file_path.data)

/-- `sync_deletions` (lines 252-318): return immediately when the source
root is not accessible; otherwise resolve the root once, run the scan
query, and process each returned (path, key) pair in order. -/
def sync_deletions (env : Env) (source_type source_path : String) (dry : Bool)
    (db : DB) (s3 : List String) : DState :=
  if env.fsExists source_path then
    List.foldl (del_step env dry) ⟨db, s3, 0, 0, []⟩
      ((considered source_type (env.resolve source_path) db).map
        (fun r => (r.file_path, r.s3_key)))
  else ⟨db, s3, 0, 0, [LogEvent.skipSource source_path]⟩

/-- Number of audit rows recorded for a path. -/
def auditCount (dels : List DeletedRecord) (p : String) : Nat :=
  (dels.filter (fun a => a.file_path == p)).length

/-- C3: for a source whose root path does not exist on this host, the
deletion pass performs no remote deletion and no ledger mutation at all —
it returns with the ledger and the bucket exactly as they were, so every
uploaded record under that root and every remote object survives the
run. -/
theorem c3_deletion_safety_unmounted (env : Env) (source_type source_path : String)
    (dry : Bool) (db0 : DB) (s3v : List String)
    (h : env.fsExists source_path = false) :
    sync_deletions env source_type source_path dry db0 s3v
      = ⟨db0, s3v, 0, 0, [LogEvent.skipSource source_path]⟩
    ∧ (sync_deletions env source_type source_path dry db0 s3v).db = db0
    ∧ (sync_deletions env source_type source_path dry db0 s3v).s3 = s3v
    ∧ (∀ r ∈ db0.live,
        r ∈ (sync_deletions env source_type source_path dry db0 s3v).db.live)
    ∧ (∀ k ∈ s3v, k ∈ (sync_deletions env source_type source_path dry db0 s3v).s3) := by
  have he : sync_deletions env source_type source_path dry db0 s3v
      = ⟨db0, s3v, 0, 0, [LogEvent.skipSource source_path]⟩ := by
    unfold sync_deletions
    rw [if_neg (by simp [h])]
  refine ⟨he, by rw [he], by rw [he], ?_, ?_⟩
  · intro r hr
    rw [he]
    exact hr
  · intro k hk
    rw [he]
    exact hk

/-- Environment whose filesystem has no accessible paths at all (an
unmounted source), used by concrete witnesses. -/
def envB : Env :=
  { digest := fun _ => "d41d8cd98f00b204e9800998ecf8427e",
    resolve := fun s => s,
    fsExists := fun _ => false,
    bucket := "glacier-bucket",
    now := 9,
    failAt := fun _ => none }

theorem c3_deletion_safety_unmounted_witness :
    (sync_deletions envB "external" "/mnt/external-storage/images" false
        ⟨[⟨"/mnt/external-storage/images/a.jpg", "external/a.jpg", "external", some 2,
            some "m", "uploaded", some 1⟩], []⟩ ["external/a.jpg"]).db
      = ⟨[⟨"/mnt/external-storage/images/a.jpg", "external/a.jpg", "external", some 2,
            some "m", "uploaded", some 1⟩], []⟩
    ∧ (sync_deletions envB "external" "/mnt/external-storage/images" false
        ⟨[⟨"/mnt/external-storage/images/a.jpg", "external/a.jpg", "external", some 2,
            some "m", "uploaded", some 1⟩], []⟩ ["external/a.jpg"]).s3
      = ["external/a.jpg"] := by
  have h := c3_deletion_safety_unmounted envB "external" "/mnt/external-storage/images"
    false
    ⟨[⟨"/mnt/external-storage/images/a.jpg", "external/a.jpg", "external", some 2,
        some "m", "uploaded", some 1⟩], []⟩ ["external/a.jpg"] (by decide)
  exact ⟨h.2.1, h.2.2.1⟩

theorem find_record_filter_ne (rows : List BackupRecord) (fp p : String) (h : p ≠ fp) :
    find_record (rows.filter (fun q => q.file_path != fp)) p = find_record rows p := by
  induction rows with
  | nil => rfl
  | cons r rs ih =>
    by_cases hr : r.file_path = fp
    · rw [List.filter_cons_of_neg (by simp [hr])]
      have e1 : find_record (r :: rs) p = find_record rs p := by
        unfold find_record
        exact List.find?_cons_of_neg _
          (by simp [hr]; exact fun h2 => h h2.symm)
      rw [ih, e1]
    · rw [List.filter_cons_of_pos (by simp [hr])]
      by_cases hrp : r.file_path = p
      · unfold find_record
        rw [List.find?_cons_of_pos _ (by simp [hrp]),
          List.find?_cons_of_pos _ (by simp [hrp])]
      · unfold find_record
        rw [List.find?_cons_of_neg _ (by simp [hrp]),
          List.find?_cons_of_neg _ (by simp [hrp])]
        exact ih

theorem find_record_filter_self (rows : List BackupRecord) (fp : String) :
    find_record (rows.filter (fun q => q.file_path != fp)) fp = none := by
  unfold find_record
  apply List.find?_eq_none.mpr
  intro a ha
  have h2 := (List.mem_filter.mp ha).2
  simp at h2 ⊢
  exact h2

theorem auditCount_append_one (dels : List DeletedRecord) (a : DeletedRecord)
    (p : String) :
    auditCount (dels ++ [a]) p
      = auditCount dels p + (if a.file_path = p then 1 else 0) := by
  unfold auditCount
  rw [List.filter_append]
  by_cases h : a.file_path = p
  · simp [h]
  · simp [h]

theorem s3_delete_subset (s3 : List String) (key k : String)
    (h : k ∈ s3_delete s3 key) : k ∈ s3 :=
  (List.mem_filter.mp h).1

theorem s3_delete_not_mem (s3 : List String) (key : String) :
    key ∉ s3_delete s3 key := by
  intro h
  have h2 := (List.mem_filter.mp h).2
  simp at h2

theorem delete_one_success (env : Env) (db : DB) (s3 : List String) (fp key : String)
    (r : BackupRecord) (hok : env.failAt fp = none)
    (hfind : find_record db.live fp = some r) :
    delete_one env db s3 fp key
      = ({ live := db.live.filter (fun q => q.file_path != fp),
           deleted := db.deleted ++ [mkAuditRow env.bucket r env.now] },
         s3_delete s3 key, DelOutcome.ok) := by
  unfold delete_one
  rw [hok, hfind]

theorem delete_one_failed_db (env : Env) (db : DB) (s3 : List String) (fp key : String)
    (stp : DelStep) (hf : env.failAt fp = some stp) :
    (delete_one env db s3 fp key).1 = db := by
  unfold delete_one
  rw [hf]
  cases hfind : find_record db.live fp with
  | none => cases stp <;> rfl
  | some r => cases stp <;> rfl

theorem delete_one_frame (env : Env) (db : DB) (s3 : List String) (fp key : String)
    (p : String) (hp : p ≠ fp) :
    find_record (delete_one env db s3 fp key).1.live p = find_record db.live p
    ∧ auditCount (delete_one env db s3 fp key).1.deleted p = auditCount db.deleted p
    ∧ (∀ a ∈ db.deleted, a ∈ (delete_one env db s3 fp key).1.deleted)
    ∧ (∀ k, k ∉ s3 → k ∉ (delete_one env db s3 fp key).2.1) := by
  unfold delete_one
  cases hfa : env.failAt fp with
  | none =>
    cases hfind : find_record db.live fp with
    | none => exact ⟨rfl, rfl, fun a ha => ha, fun k hk => hk⟩
    | some r =>
      have hrf : r.file_path = fp := find_record_path hfind
      refine ⟨find_record_filter_ne db.live fp p hp, ?_, ?_, ?_⟩
      · show auditCount (db.deleted ++ [mkAuditRow env.bucket r env.now]) p
          = auditCount db.deleted p
        rw [auditCount_append_one]
        have hne2 : (mkAuditRow env.bucket r env.now).file_path ≠ p := by
          show r.file_path ≠ p
          rw [hrf]
          exact fun h5 => hp h5.symm
        rw [if_neg hne2, Nat.add_zero]
      · intro a ha
        exact List.mem_append_left _ ha
      · intro k hk hm
        exact hk (s3_delete_subset s3 key k hm)
  | some stp =>
    cases hfind : find_record db.live fp with
    | none => cases stp <;> exact ⟨rfl, rfl, fun a ha => ha, fun k hk => hk⟩
    | some r =>
      cases stp with
      | fetch => exact ⟨rfl, rfl, fun a ha => ha, fun k hk => hk⟩
      | audit => exact ⟨rfl, rfl, fun a ha => ha, fun k hk => hk⟩
      | remote => exact ⟨rfl, rfl, fun a ha => ha, fun k hk => hk⟩
      | livedel =>
        exact ⟨rfl, rfl, fun a ha => ha,
          fun k hk hm => hk (s3_delete_subset s3 key k hm)⟩

theorem del_step_frame_other (env : Env) (dry : Bool) (st0 : DState)
    (pk : String × String) (p : String) (hp : p ≠ pk.1) :
    find_record (del_step env dry st0 pk).db.live p = find_record st0.db.live p
    ∧ auditCount (del_step env dry st0 pk).db.deleted p = auditCount st0.db.deleted p
    ∧ (∀ a ∈ st0.db.deleted, a ∈ (del_step env dry st0 pk).db.deleted)
    ∧ (∀ k, k ∉ st0.s3 → k ∉ (del_step env dry st0 pk).s3) := by
  have hfr := delete_one_frame env st0.db st0.s3 pk.1 pk.2 p hp
  unfold del_step
  by_cases hex : env.fsExists pk.1 = true
  · rw [if_pos hex]
    exact ⟨rfl, rfl, fun a ha => ha, fun k hk => hk⟩
  · rw [if_neg hex]
    by_cases hd : dry = true
    · rw [if_pos hd]
      exact ⟨rfl, rfl, fun a ha => ha, fun k hk => hk⟩
    · rw [if_neg hd]
      rcases hdo : delete_one env st0.db st0.s3 pk.1 pk.2 with ⟨db2, s32, oc⟩
      rw [hdo] at hfr
      cases oc
      · exact ⟨hfr.1, hfr.2.1, hfr.2.2.1, hfr.2.2.2⟩
      · exact ⟨hfr.1, hfr.2.1, hfr.2.2.1, hfr.2.2.2⟩
      · exact ⟨hfr.1, hfr.2.1, hfr.2.2.1, hfr.2.2.2⟩

theorem del_step_target (env : Env) (st0 : DState) (fp key : String) (r : BackupRecord)
    (habs : env.fsExists fp = false) (hok : env.failAt fp = none)
    (hfind : find_record st0.db.live fp = some r) :
    del_step env false st0 (fp, key)
      = { st0 with
          db := { live := st0.db.live.filter (fun q => q.file_path != fp),
                  deleted := st0.db.deleted ++ [mkAuditRow env.bucket r env.now] },
          s3 := s3_delete st0.s3 key,
          deleted_count := st0.deleted_count + 1,
          log := st0.log ++ [LogEvent.deletedLog fp key] } := by
  unfold del_step
  rw [if_neg (by simp [habs])]
  rw [if_neg (by simp)]
  rw [delete_one_success env st0.db st0.s3 fp key r hok hfind]

theorem del_fold_done (env : Env) :
    ∀ (pairs : List (String × String)) (st0 : DState) (fp : String) (A : Nat)
      (row : DeletedRecord) (key : String),
      fp ∉ pairs.map Prod.fst →
      find_record st0.db.live fp = none →
      auditCount st0.db.deleted fp = A →
      row ∈ st0.db.deleted →
      key ∉ st0.s3 →
      find_record (List.foldl (del_step env false) st0 pairs).db.live fp = none
      ∧ auditCount (List.foldl (del_step env false) st0 pairs).db.deleted fp = A
      ∧ row ∈ (List.foldl (del_step env false) st0 pairs).db.deleted
      ∧ key ∉ (List.foldl (del_step env false) st0 pairs).s3 := by
  intro pairs
  induction pairs with
  | nil => intro st0 fp A row key _ h1 h2 h3 h4; exact ⟨h1, h2, h3, h4⟩
  | cons pk rest ih =>
    intro st0 fp A row key hnot h1 h2 h3 h4
    have hne : fp ≠ pk.1 := by
      intro he
      apply hnot
      rw [List.map_cons]
      exact he ▸ List.mem_cons_self pk.1 (rest.map Prod.fst)
    have hnot2 : fp ∉ rest.map Prod.fst := by
      intro hm
      apply hnot
      rw [List.map_cons]
      exact List.mem_cons_of_mem pk.1 hm
    have hfr := del_step_frame_other env false st0 pk fp hne
    rw [List.foldl_cons]
    exact ih (del_step env false st0 pk) fp A row key hnot2 (hfr.1.trans h1)
      (hfr.2.1.trans h2) (hfr.2.2.1 row h3) (hfr.2.2.2 key h4)

theorem del_fold_processes (env : Env) :
    ∀ (pairs : List (String × String)) (st0 : DState) (fp key : String)
      (r : BackupRecord),
      (pairs.map Prod.fst).Nodup →
      (fp, key) ∈ pairs →
      env.fsExists fp = false →
      env.failAt fp = none →
      find_record st0.db.live fp = some r →
      find_record (List.foldl (del_step env false) st0 pairs).db.live fp = none
      ∧ auditCount (List.foldl (del_step env false) st0 pairs).db.deleted fp
          = auditCount st0.db.deleted fp + 1
      ∧ mkAuditRow env.bucket r env.now
          ∈ (List.foldl (del_step env false) st0 pairs).db.deleted
      ∧ key ∉ (List.foldl (del_step env false) st0 pairs).s3 := by
  intro pairs
  induction pairs with
  | nil => intro st0 fp key r _ hmem; exact absurd hmem (List.not_mem_nil _)
  | cons pk rest ih =>
    intro st0 fp key r hnd hmem habs hok hfind
    have hnd1 : pk.1 ∉ rest.map Prod.fst := by
      rw [List.map_cons] at hnd
      exact (List.nodup_cons.mp hnd).1
    have hnd2 : (rest.map Prod.fst).Nodup := by
      rw [List.map_cons] at hnd
      exact (List.nodup_cons.mp hnd).2
    rw [List.foldl_cons]
    rcases List.mem_cons.mp hmem with heq | hmem2
    · obtain rfl : pk = (fp, key) := heq.symm
      rw [del_step_target env st0 fp key r habs hok hfind]
      have hrf : r.file_path = fp := find_record_path hfind
      apply del_fold_done env rest _ fp (auditCount st0.db.deleted fp + 1)
        (mkAuditRow env.bucket r env.now) key hnd1
      · exact find_record_filter_self st0.db.live fp
      · show auditCount (st0.db.deleted ++ [mkAuditRow env.bucket r env.now]) fp
          = auditCount st0.db.deleted fp + 1
        rw [auditCount_append_one]
        have : (mkAuditRow env.bucket r env.now).file_path = fp := hrf
        rw [if_pos this]
      · exact List.mem_append_right _ (List.mem_cons_self _ _)
      · exact s3_delete_not_mem st0.s3 key
    · have hne : fp ≠ pk.1 := by
        intro he
        apply hnd1
        rw [← he]
        exact List.mem_map_of_mem Prod.fst hmem2
      have hfr := del_step_frame_other env false st0 pk fp hne
      have h2 := ih (del_step env false st0 pk) fp key r hnd2 hmem2 habs hok
        (hfr.1.trans hfind)
      exact ⟨h2.1, by rw [h2.2.1, hfr.2.1], h2.2.2.1, h2.2.2.2⟩

theorem considered_fst_nodup (source_type spr : String) (db : DB)
    (hnd : (db.live.map BackupRecord.file_path).Nodup) :
    (((considered source_type spr db).map (fun r => (r.file_path, r.s3_key))).map
      Prod.fst).Nodup := by
  have he : (((considered source_type spr db).map (fun r => (r.file_path, r.s3_key))).map
        Prod.fst)
      = (considered source_type spr db).map BackupRecord.file_path := by
    rw [List.map_map]
    rfl
  rw [he]
  exact List.Nodup.sublist (List.Sublist.map _ (List.filter_sublist _)) hnd

theorem find_record_of_mem_nodup (rows : List BackupRecord) (r : BackupRecord)
    (hm : r ∈ rows) (hnd : (rows.map BackupRecord.file_path).Nodup) :
    find_record rows r.file_path = some r := by
  induction rows with
  | nil => exact absurd hm (List.not_mem_nil r)
  | cons x xs ih =>
    rw [List.map_cons] at hnd
    rcases List.mem_cons.mp hm with rfl | hm2
    · unfold find_record
      exact List.find?_cons_of_pos _ (by simp)
    · have hxne : x.file_path ≠ r.file_path := by
        intro he
        exact (List.nodup_cons.mp hnd).1
          (he ▸ List.mem_map_of_mem BackupRecord.file_path hm2)
      unfold find_record
      rw [List.find?_cons_of_neg _ (by simp [hxne])]
      exact ih hm2 (List.nodup_cons.mp hnd).2

theorem considered_mem_live (source_type spr : String) (db : DB) (r : BackupRecord)
    (h : r ∈ considered source_type spr db) : r ∈ db.live :=
  (List.mem_filter.mp h).1

/-- C2: the per-record deletion transaction is atomic and its audit is
complete: a successful transaction removes exactly the live row and
appends exactly one audit row carrying the record's path, key and
original status, in the same commit; a failure injected at any step
(fetch, audit insert, remote delete, live delete) leaves both ledger
tables unchanged for that record; and the pass still fully processes
every other clean absent record of the scan, whatever failures other
records suffer. -/
theorem c2_delete_atomic_audit (env : Env) (source_type source_path : String)
    (db0 : DB) (s3v : List String)
    (hroot : env.fsExists source_path = true)
    (hnd : (db0.live.map BackupRecord.file_path).Nodup) :
    (∀ (db : DB) (s3 : List String) (fp key : String) (r : BackupRecord),
      env.failAt fp = none → find_record db.live fp = some r →
      delete_one env db s3 fp key
        = ({ live := db.live.filter (fun q => q.file_path != fp),
             deleted := db.deleted ++ [mkAuditRow env.bucket r env.now] },
           s3_delete s3 key, DelOutcome.ok)
      ∧ (mkAuditRow env.bucket r env.now).file_path = r.file_path
      ∧ (mkAuditRow env.bucket r env.now).s3_key = r.s3_key
      ∧ (mkAuditRow env.bucket r env.now).original_status = r.status)
    ∧ (∀ (db : DB) (s3 : List String) (fp key : String) (stp : DelStep),
        env.failAt fp = some stp → (delete_one env db s3 fp key).1 = db)
    ∧ (∀ r ∈ considered source_type (env.resolve source_path) db0,
        env.fsExists r.file_path = false → env.failAt r.file_path = none →
        find_record (sync_deletions env source_type source_path false db0 s3v).db.live
            r.file_path = none
        ∧ auditCount
            (sync_deletions env source_type source_path false db0 s3v).db.deleted
            r.file_path
            = auditCount db0.deleted r.file_path + 1
        ∧ mkAuditRow env.bucket r env.now
            ∈ (sync_deletions env source_type source_path false db0 s3v).db.deleted
        ∧ r.s3_key ∉ (sync_deletions env source_type source_path false db0 s3v).s3) := by
  refine ⟨fun db s3 fp key r hok hfind =>
      ⟨delete_one_success env db s3 fp key r hok hfind, rfl, rfl, rfl⟩,
    fun db s3 fp key stp hf => delete_one_failed_db env db s3 fp key stp hf,
    ?_⟩
  intro r hr habs hok
  have hsync : sync_deletions env source_type source_path false db0 s3v
      = List.foldl (del_step env false) ⟨db0, s3v, 0, 0, []⟩
          ((considered source_type (env.resolve source_path) db0).map
            (fun r => (r.file_path, r.s3_key))) := by
    unfold sync_deletions
    rw [if_pos hroot]
  rw [hsync]
  exact del_fold_processes env
    ((considered source_type (env.resolve source_path) db0).map
      (fun r => (r.file_path, r.s3_key)))
    ⟨db0, s3v, 0, 0, []⟩ r.file_path r.s3_key r
    (considered_fst_nodup source_type (env.resolve source_path) db0 hnd)
    (List.mem_map_of_mem (fun r => (r.file_path, r.s3_key)) hr)
    habs hok
    (find_record_of_mem_nodup db0.live r (considered_mem_live _ _ _ _ hr) hnd)

/-- Environment for deletion-pass witnesses: only the source root
exists on disk (every archived file is locally absent), no injected
failures. -/
def envC : Env :=
  { digest := fun _ => "d41d8cd98f00b204e9800998ecf8427e",
    resolve := fun s => s,
    fsExists := fun p => p == "/data/images",
    bucket := "glacier-bucket",
    now := 3,
    failAt := fun _ => none }

theorem c2_delete_atomic_audit_witness :
    find_record (sync_deletions envC "internal" "/data/images" false
        ⟨[⟨"/data/images/c.jpg", "internal/c.jpg", "internal", some 2, some "m",
            "uploaded", some 1⟩], []⟩ ["internal/c.jpg"]).db.live
      "/data/images/c.jpg" = none
    ∧ auditCount (sync_deletions envC "internal" "/data/images" false
        ⟨[⟨"/data/images/c.jpg", "internal/c.jpg", "internal", some 2, some "m",
            "uploaded", some 1⟩], []⟩ ["internal/c.jpg"]).db.deleted
      "/data/images/c.jpg" = 1
    ∧ "internal/c.jpg" ∉ (sync_deletions envC "internal" "/data/images" false
        ⟨[⟨"/data/images/c.jpg", "internal/c.jpg", "internal", some 2, some "m",
            "uploaded", some 1⟩], []⟩ ["internal/c.jpg"]).s3 := by
  have h := (c2_delete_atomic_audit envC "internal" "/data/images"
      ⟨[⟨"/data/images/c.jpg", "internal/c.jpg", "internal", some 2, some "m",
          "uploaded", some 1⟩], []⟩ ["internal/c.jpg"] (by decide) (by decide)).2.2
      ⟨"/data/images/c.jpg", "internal/c.jpg", "internal", some 2, some "m",
        "uploaded", some 1⟩ (by decide) (by decide) (by decide)
  exact ⟨h.1, h.2.1.trans (by decide), h.2.2.2⟩

theorem likeMatchF_nil_pattern (f : Nat) (s : List Char) (hf : 1 ≤ f) :
    likeMatchF f [] s = s.isEmpty := by
  obtain ⟨g, rfl⟩ : ∃ g, f = g + 1 := ⟨f - 1, by omega⟩
  rfl

theorem likeMatchF_lit_percent (fuel : Nat) :
    ∀ (p s : List Char), p.length + s.length + 2 ≤ fuel →
      (∀ c ∈ p, c ≠ '%' ∧ c ≠ '_' ∧ c ≠ '\\') →
      likeMatchF fuel (p ++ ['%']) s = p.isPrefixOf s := by
  induction fuel with
  | zero => intro p s hfuel _; omega
  | succ f ih =>
    intro p s hfuel hp
    cases p with
    | nil =>
      cases s with
      | nil =>
        have h1 : likeMatchF (f + 1) ['%'] [] = likeMatchF f [] [] := rfl
        rw [List.nil_append, h1, likeMatchF_nil_pattern f [] (by simp at hfuel; omega)]
        rfl
      | cons d ss =>
        have h1 : likeMatchF (f + 1) ['%'] (d :: ss)
            = (likeMatchF f [] (d :: ss) || likeMatchF f ['%'] ss) := rfl
        rw [List.nil_append, h1,
          likeMatchF_nil_pattern f (d :: ss) (by simp at hfuel; omega)]
        have h3 := ih [] ss (by simp at hfuel ⊢; omega) (fun c hc => absurd hc (List.not_mem_nil c))
        rw [List.nil_append] at h3
        rw [h3]
        simp [List.isPrefixOf]
    | cons c p2 =>
      obtain ⟨hc1, hc2, hc3⟩ := hp c (List.mem_cons_self c p2)
      cases s with
      | nil =>
        show likeMatchF (f + 1) (c :: (p2 ++ ['%'])) [] = (c :: p2).isPrefixOf []
        simp [likeMatchF, hc1, hc2, hc3, List.isPrefixOf]
      | cons d ss =>
        show likeMatchF (f + 1) (c :: (p2 ++ ['%'])) (d :: ss)
          = (c :: p2).isPrefixOf (d :: ss)
        have h4 := ih p2 ss (by simp at hfuel ⊢; omega)
          (fun e he => hp e (List.mem_cons_of_mem c he))
        simp [likeMatchF, hc1, hc2, hc3, List.isPrefixOf, h4]

theorem likeMatch_lit_percent (p s : List Char)
    (hp : ∀ c ∈ p, c ≠ '%' ∧ c ≠ '_' ∧ c ≠ '\\') :
    likeMatch (p ++ ['%']) s = p.isPrefixOf s := by
  unfold likeMatch
  apply likeMatchF_lit_percent
  · simp
    omega
  · exact hp

theorem isPrefixOf_of_isUnder (root p : String) (h : isUnder root p = true) :
    root.data.isPrefixOf p.data = true := by
  unfold isUnder at h
  rw [Bool.or_eq_true] at h
  rcases h with h1 | h2
  · have he : p = root := by simpa using h1
    subst he
    exact List.isPrefixOf_iff_prefix.mpr (List.prefix_refl _)
  · unfold strStartsWith at h2
    have h3 := List.isPrefixOf_iff_prefix.mp h2
    rw [string_data_append] at h3
    exact List.isPrefixOf_iff_prefix.mpr
      ((List.prefix_append root.data ("/").data).trans h3)

/-- C7 (amended): for an accessible source root, the deletion pass
considers exactly the uploaded records of the matching source type whose
path string matches the SQL pattern `resolved_root` followed by `%` —
for a root free of LIKE metacharacters this is plain string-prefix
matching, which includes every record under the root but also records in
sibling directories whose paths merely share the string prefix; each
considered record whose local file no longer exists (and whose
transaction does not fail) is processed as a confirmed deletion: remote
object deleted, audit entry written, live record removed. -/
theorem c7_deletion_scan_selection (env : Env) (source_type source_path : String)
    (db0 : DB) (s3v : List String)
    (hplain : ∀ c ∈ (env.resolve source_path).data, c ≠ '%' ∧ c ≠ '_' ∧ c ≠ '\\') :
    (∀ r, r ∈ considered source_type (env.resolve source_path) db0
      ↔ r ∈ db0.live ∧ r.source_type = source_type ∧ r.status = "uploaded"
          ∧ (env.resolve source_path).data.isPrefixOf r.file_path.data = true)
    ∧ (∀ r ∈ db0.live, r.source_type = source_type → r.status = "uploaded" →
        isUnder (env.resolve source_path) r.file_path = true →
        r ∈ considered source_type (env.resolve source_path) db0)
    ∧ (env.fsExists source_path = true →
        (db0.live.map BackupRecord.file_path).Nodup →
        ∀ r ∈ considered source_type (env.resolve source_path) db0,
          env.fsExists r.file_path = false → env.failAt r.file_path = none →
          find_record (sync_deletions env source_type source_path false db0 s3v).db.live
              r.file_path = none
          ∧ mkAuditRow env.bucket r env.now
              ∈ (sync_deletions env source_type source_path false db0 s3v).db.deleted
          ∧ r.s3_key ∉ (sync_deletions env source_type source_path false db0 s3v).s3) := by
  have hpat : (env.resolve source_path ++ "%").data
      = (env.resolve source_path).data ++ ['%'] := by
    rw [string_data_append]
  have hmemc : ∀ r, r ∈ considered source_type (env.resolve source_path) db0
      ↔ r ∈ db0.live ∧ r.source_type = source_type ∧ r.status = "uploaded"
          ∧ (env.resolve source_path).data.isPrefixOf r.file_path.data = true := by
    intro r
    unfold considered
    rw [List.mem_filter, hpat, likeMatch_lit_percent _ _ hplain]
    simp [Bool.and_eq_true, and_assoc]
  refine ⟨hmemc, ?_, ?_⟩
  · intro r hr ht hs hu
    exact (hmemc r).mpr ⟨hr, ht, hs, isPrefixOf_of_isUnder _ _ hu⟩
  · intro hroot hnd r hr habs hok
    have hsync : sync_deletions env source_type source_path false db0 s3v
        = List.foldl (del_step env false) ⟨db0, s3v, 0, 0, []⟩
            ((considered source_type (env.resolve source_path) db0).map
              (fun r => (r.file_path, r.s3_key))) := by
      unfold sync_deletions
      rw [if_pos hroot]
    rw [hsync]
    have h := del_fold_processes env
      ((considered source_type (env.resolve source_path) db0).map
        (fun r => (r.file_path, r.s3_key)))
      ⟨db0, s3v, 0, 0, []⟩ r.file_path r.s3_key r
      (considered_fst_nodup source_type (env.resolve source_path) db0 hnd)
      (List.mem_map_of_mem (fun r => (r.file_path, r.s3_key)) hr)
      habs hok
      (find_record_of_mem_nodup db0.live r (considered_mem_live _ _ _ _ hr) hnd)
    exact ⟨h.1, h.2.2.1, h.2.2.2⟩

theorem c7_deletion_scan_selection_witness :
    find_record (sync_deletions envC "internal" "/data/images" false
        ⟨[⟨"/data/images/b.jpg", "internal/b.jpg", "internal", some 2, some "m",
            "uploaded", some 1⟩], []⟩ ["internal/b.jpg"]).db.live
      "/data/images/b.jpg" = none
    ∧ "internal/b.jpg" ∉ (sync_deletions envC "internal" "/data/images" false
        ⟨[⟨"/data/images/b.jpg", "internal/b.jpg", "internal", some 2, some "m",
            "uploaded", some 1⟩], []⟩ ["internal/b.jpg"]).s3 := by
  have h := (c7_deletion_scan_selection envC "internal" "/data/images"
      ⟨[⟨"/data/images/b.jpg", "internal/b.jpg", "internal", some 2, some "m",
          "uploaded", some 1⟩], []⟩ ["internal/b.jpg"] (by decide)).2.2
      (by decide) (by decide)
      ⟨"/data/images/b.jpg", "internal/b.jpg", "internal", some 2, some "m",
        "uploaded", some 1⟩ (by decide) (by decide) (by decide)
  exact ⟨h.1, h.2.2⟩

/-- C7 counterexample: the scan query string-prefix-matches via LIKE, so
with accessible root `/data/images` a record at `/data/images2/a.jpg` —
which is not under the root — is selected and processed: its live row is
removed, an audit row is written, and the remote object is deleted.
This refutes the claim that no record whose local path lies outside the
root is considered. -/
theorem c7_deletion_scan_counterexample :
    isUnder "/data/images" "/data/images2/a.jpg" = false
    ∧ (sync_deletions envC "internal" "/data/images" false
        ⟨[⟨"/data/images2/a.jpg", "internal/a.jpg", "internal", some 3, some "m",
            "uploaded", some 1⟩], []⟩ ["internal/a.jpg"]).db.live = []
    ∧ (sync_deletions envC "internal" "/data/images" false
        ⟨[⟨"/data/images2/a.jpg", "internal/a.jpg", "internal", some 3, some "m",
            "uploaded", some 1⟩], []⟩ ["internal/a.jpg"]).db.deleted.length = 1
    ∧ (sync_deletions envC "internal" "/data/images" false
        ⟨[⟨"/data/images2/a.jpg", "internal/a.jpg", "internal", some 3, some "m",
            "uploaded", some 1⟩], []⟩ ["internal/a.jpg"]).s3 = [] := by
  decide

theorem upload_dry_some (env : Env) (c : Candidate) (s3key : String)
    (s3 : List String) (n : Nat) (hn : c.size = some n) :
    upload_file_to_s3 env c s3key true s3
      = some (n, calculate_md5 env.digest c.fp_read, s3,
          [LogEvent.wouldUpload c.path s3key n (calculate_md5 env.digest c.fp_read)]) := by
  unfold upload_file_to_s3
  rw [hn]
  rfl

theorem upload_dry_none (env : Env) (c : Candidate) (s3key : String)
    (s3 : List String) (hn : c.size = none) :
    upload_file_to_s3 env c s3key true s3 = none := by
  unfold upload_file_to_s3
  rw [hn]

theorem process_dry_upload (env : Env) (source_type spr : String) (st0 : SState)
    (c : Candidate) (n : Nat) (hn : c.size = some n)
    (hns : isUploadedB st0.db.live c.path = false) :
    process_candidate env source_type spr true st0 c
      = { st0 with
          uploaded_count := st0.uploaded_count + 1,
          log := st0.log ++ [LogEvent.wouldUpload c.path
            (get_s3_key env.resolve c.path source_type spr) n
            (calculate_md5 env.digest c.fp_read)] } := by
  unfold isUploadedB at hns
  unfold process_candidate
  rw [hns]
  simp only [Bool.false_eq_true, if_false]
  rw [upload_dry_some env c (get_s3_key env.resolve c.path source_type spr) st0.s3 n hn]
  rfl

theorem process_dry_error (env : Env) (source_type spr : String) (st0 : SState)
    (c : Candidate) (hn : c.size = none)
    (hns : isUploadedB st0.db.live c.path = false) :
    process_candidate env source_type spr true st0 c
      = { st0 with error_count := st0.error_count + 1 } := by
  unfold isUploadedB at hns
  unfold process_candidate
  rw [hns]
  simp only [Bool.false_eq_true, if_false]
  rw [upload_dry_none env c (get_s3_key env.resolve c.path source_type spr) st0.s3 hn]
  rfl

theorem process_dry_frame (env : Env) (source_type spr : String) (st0 : SState)
    (c : Candidate) :
    (process_candidate env source_type spr true st0 c).db = st0.db
    ∧ (process_candidate env source_type spr true st0 c).s3 = st0.s3 := by
  cases hskip : isUploadedB st0.db.live c.path with
  | true =>
    rw [process_skip env source_type spr true st0 c hskip]
    exact ⟨rfl, rfl⟩
  | false =>
    cases hn : c.size with
    | none =>
      rw [process_dry_error env source_type spr st0 c hn hskip]
      exact ⟨rfl, rfl⟩
    | some n =>
      rw [process_dry_upload env source_type spr st0 c n hn hskip]
      exact ⟨rfl, rfl⟩

theorem process_log_mono (env : Env) (source_type spr : String) (dry : Bool)
    (st0 : SState) (c : Candidate) (l : LogEvent) (h : l ∈ st0.log) :
    l ∈ (process_candidate env source_type spr dry st0 c).log := by
  unfold process_candidate
  by_cases hskip : Option.any (fun r => r.status == "uploaded")
      (find_record st0.db.live c.path) = true
  · rw [hskip]
    simpa using h
  · rw [Bool.not_eq_true] at hskip
    rw [hskip]
    simp only [Bool.false_eq_true, if_false]
    cases hu : upload_file_to_s3 env c (get_s3_key env.resolve c.path source_type spr) dry
        st0.s3 with
    | none =>
      by_cases hd : dry = true
      · simp [hd]
        exact h
      · simp [hd]
        exact h
    | some v =>
      obtain ⟨n, md5, s3A, lg⟩ := v
      by_cases hd : dry = true
      · simp [hd]
        exact Or.inl h
      · simp [hd]
        exact Or.inl h

theorem foldl_dry_frame (env : Env) (source_type spr : String) :
    ∀ (cs : List Candidate) (st0 : SState),
      (List.foldl (process_candidate env source_type spr true) st0 cs).db = st0.db
      ∧ (List.foldl (process_candidate env source_type spr true) st0 cs).s3 = st0.s3 := by
  intro cs
  induction cs with
  | nil => intro st0; exact ⟨rfl, rfl⟩
  | cons c cs ih =>
    intro st0
    rw [List.foldl_cons]
    have h1 := process_dry_frame env source_type spr st0 c
    have h2 := ih (process_candidate env source_type spr true st0 c)
    exact ⟨h2.1.trans h1.1, h2.2.trans h1.2⟩

theorem foldl_log_mono (env : Env) (source_type spr : String) (dry : Bool) :
    ∀ (cs : List Candidate) (st0 : SState) (l : LogEvent),
      l ∈ st0.log →
      l ∈ (List.foldl (process_candidate env source_type spr dry) st0 cs).log := by
  intro cs
  induction cs with
  | nil => intro st0 l h; exact h
  | cons c cs ih =>
    intro st0 l h
    rw [List.foldl_cons]
    exact ih _ l (process_log_mono env source_type spr dry st0 c l h)

theorem foldl_dry_log (env : Env) (source_type spr : String) :
    ∀ (cs : List Candidate) (st0 : SState),
      ∀ c ∈ cs, isUploadedB st0.db.live c.path = false → ∀ n, c.size = some n →
        LogEvent.wouldUpload c.path (get_s3_key env.resolve c.path source_type spr) n
            (calculate_md5 env.digest c.fp_read)
          ∈ (List.foldl (process_candidate env source_type spr true) st0 cs).log := by
  intro cs
  induction cs with
  | nil => intro st0 c hc; exact absurd hc (List.not_mem_nil c)
  | cons d ds ih =>
    intro st0 c hc hns n hn
    rw [List.foldl_cons]
    rcases List.mem_cons.mp hc with rfl | hc2
    · rw [process_dry_upload env source_type spr st0 c n hn hns]
      apply foldl_log_mono env source_type spr true ds _ _
      exact List.mem_append_right _ (List.mem_cons_self _ _)
    · have hdb := (process_dry_frame env source_type spr st0 d).1
      apply ih (process_candidate env source_type spr true st0 d) c hc2 _ n hn
      unfold isUploadedB at hns ⊢
      rw [show (process_candidate env source_type spr true st0 d).db.live
        = st0.db.live from by rw [hdb]]
      exact hns

theorem del_step_dry_frame (env : Env) (st0 : DState) (pk : String × String) :
    (del_step env true st0 pk).db = st0.db ∧ (del_step env true st0 pk).s3 = st0.s3 := by
  unfold del_step
  by_cases hex : env.fsExists pk.1 = true
  · rw [if_pos hex]
    exact ⟨rfl, rfl⟩
  · rw [if_neg hex]
    exact ⟨rfl, rfl⟩

theorem foldl_del_dry_frame (env : Env) :
    ∀ (pairs : List (String × String)) (st0 : DState),
      (List.foldl (del_step env true) st0 pairs).db = st0.db
      ∧ (List.foldl (del_step env true) st0 pairs).s3 = st0.s3 := by
  intro pairs
  induction pairs with
  | nil => intro st0; exact ⟨rfl, rfl⟩
  | cons pk rest ih =>
    intro st0
    rw [List.foldl_cons]
    have h1 := del_step_dry_frame env st0 pk
    have h2 := ih (del_step env true st0 pk)
    exact ⟨h2.1.trans h1.1, h2.2.trans h1.2⟩

/-- C8: with the dry-run flag set, neither pass writes or deletes a
remote object and neither mutates either ledger table (in particular no
error records are written for candidates that fail); the upload pass
still computes each non-skipped candidate's size and fingerprint and
logs the intended upload with them. -/
theorem c8_dry_run_frame (env : Env) (source_type source_path : String)
    (cs : List Candidate) (db0 : DB) (s3v : List String) :
    ((scan_and_upload env source_type source_path cs true db0 s3v).db = db0
      ∧ (scan_and_upload env source_type source_path cs true db0 s3v).s3 = s3v)
    ∧ ((sync_deletions env source_type source_path true db0 s3v).db = db0
      ∧ (sync_deletions env source_type source_path true db0 s3v).s3 = s3v)
    ∧ (env.fsExists source_path = true →
        ∀ c ∈ cs, isUploadedB db0.live c.path = false → ∀ n, c.size = some n →
          LogEvent.wouldUpload c.path
              (get_s3_key env.resolve c.path source_type (env.resolve source_path)) n
              (calculate_md5 env.digest c.fp_read)
            ∈ (scan_and_upload env source_type source_path cs true db0 s3v).log) := by
  refine ⟨?_, ?_, ?_⟩
  · unfold scan_and_upload
    by_cases hroot : env.fsExists source_path = true
    · rw [if_pos hroot]
      exact foldl_dry_frame env source_type (env.resolve source_path) cs
        ⟨db0, s3v, 0, 0, 0, []⟩
    · rw [if_neg hroot]
      exact ⟨rfl, rfl⟩
  · unfold sync_deletions
    by_cases hroot : env.fsExists source_path = true
    · rw [if_pos hroot]
      exact foldl_del_dry_frame env
        ((considered source_type (env.resolve source_path) db0).map
          (fun r => (r.file_path, r.s3_key)))
        ⟨db0, s3v, 0, 0, []⟩
    · rw [if_neg hroot]
      exact ⟨rfl, rfl⟩
  · intro hroot c hc hns n hn
    unfold scan_and_upload
    rw [if_pos hroot]
    exact foldl_dry_log env source_type (env.resolve source_path) cs
      ⟨db0, s3v, 0, 0, 0, []⟩ c hc hns n hn

theorem c8_dry_run_frame_witness :
    ((scan_and_upload envA "internal" "/r" [⟨"/r/a.jpg", some 7, some [1], some [1]⟩]
        true ⟨[], []⟩ []).db = ⟨[], []⟩
      ∧ (scan_and_upload envA "internal" "/r" [⟨"/r/a.jpg", some 7, some [1], some [1]⟩]
          true ⟨[], []⟩ []).s3 = [])
    ∧ LogEvent.wouldUpload "/r/a.jpg"
        (get_s3_key envA.resolve "/r/a.jpg" "internal" (envA.resolve "/r")) 7
        (calculate_md5 envA.digest (some [1]))
      ∈ (scan_and_upload envA "internal" "/r" [⟨"/r/a.jpg", some 7, some [1], some [1]⟩]
          true ⟨[], []⟩ []).log := by
  have h := c8_dry_run_frame envA "internal" "/r"
    [⟨"/r/a.jpg", some 7, some [1], some [1]⟩] ⟨[], []⟩ []
  exact ⟨h.1, h.2.2 (by decide) ⟨"/r/a.jpg", some 7, some [1], some [1]⟩ (by decide)
    (by decide) 7 rfl⟩

end ImageServer
